import Mathlib

/-!
Shallow embedding of the clinic-management data model of `src/main.py`
(a MySQL DDL script defining four tables: `patients`, `doctors`,
`appointments`, `medical_records`) together with the scheduling-engine
operations the specification describes over that schema.

Schema-derived parts (types, nullability, unique keys, foreign keys and
their ON DELETE actions) are translated directly from the DDL.  The
engine operations (`registerPatient`, `book`, `transition`, ...) are not
present in the repository's sources; they are modelled from the spec and
are always constrained by the schema: an insert or update that would
violate a declared constraint fails.
-/

namespace Clinic

/-- `gender ENUM('Male', 'Female', 'Other')` from the `patients` table. -/
inductive Gender where
  | male
  | female
  | other
deriving DecidableEq

/-- `status ENUM('Scheduled', 'Completed', 'Cancelled', 'No-show')` from the
`appointments` table. -/
inductive Status where
  | scheduled
  | completed
  | cancelled
  | noShow
deriving DecidableEq

/-- A row of the `patients` table.  `phone_number`, `email` and `address`
are nullable columns (no NOT NULL in the DDL); the rest are NOT NULL.
Dates are opaque comparable values, modelled as `Nat`. -/
structure Patient where
  patient_id : Nat
  first_name : String
  last_name : String
  date_of_birth : Nat
  gender : Gender
  phone_number : Option String
  email : Option String
  address : Option String
deriving DecidableEq

/-- A row of the `doctors` table.  `license_number` is `UNIQUE NOT NULL`,
so it is not optional; `phone_number` and `email` are nullable. -/
structure Doctor where
  doctor_id : Nat
  first_name : String
  last_name : String
  specialization : String
  phone_number : Option String
  email : Option String
  license_number : String
  available : Bool
deriving DecidableEq

/-- A row of the `appointments` table.  `patient_id` and `doctor_id` are
NOT NULL foreign keys with ON DELETE CASCADE. -/
structure Appointment where
  appointment_id : Nat
  patient_id : Nat
  doctor_id : Nat
  appointment_date : Nat
  appointment_time : Nat
  status : Status
  reason : Option String
  notes : Option String
deriving DecidableEq

/-- A row of the `medical_records` table.  `patient_id` and `doctor_id`
are NOT NULL foreign keys with ON DELETE CASCADE; `appointment_id` is a
nullable foreign key with ON DELETE SET NULL; `record_date` is NOT NULL. -/
structure MedicalRecord where
  record_id : Nat
  patient_id : Nat
  doctor_id : Nat
  appointment_id : Option Nat
  diagnosis : Option String
  prescription : Option String
  notes : Option String
  record_date : Nat
deriving DecidableEq

/-- The database state: the four tables of the schema. -/
structure DB where
  patients : List Patient
  doctors : List Doctor
  appointments : List Appointment
  medical_records : List MedicalRecord
deriving DecidableEq

/-- The empty database, as created by the DDL script. -/
def initDB : DB := ⟨[], [], [], []⟩

/-- The key of `UNIQUE KEY unique_doctor_timeslot (doctor_id,
appointment_date, appointment_time)`. -/
def slotKey (a : Appointment) : Nat × Nat × Nat :=
  (a.doctor_id, a.appointment_date, a.appointment_time)

/-- The constraint `UNIQUE KEY unique_doctor_timeslot (doctor_id,
appointment_date, appointment_time)` of the `appointments` table: the
slot triple is unique across ALL rows, with no restriction on `status`. -/
def unique_doctor_timeslot (l : List Appointment) : Prop :=
  (l.map slotKey).Nodup

/-- The uniqueness rule as the spec words it: "the tuple (doctor, date,
time) is unique across all Appointments that are not Cancelled".  Stated
separately so it can be compared with `unique_doctor_timeslot`, the
constraint actually declared in the schema. -/
def uniqueNonCancelledSlots (l : List Appointment) : Prop :=
  ((l.filter (fun a => !(a.status == Status.cancelled))).map slotKey).Nodup

instance (l : List Appointment) : Decidable (unique_doctor_timeslot l) :=
  List.nodupDecidable _

instance (l : List Appointment) : Decidable (uniqueNonCancelledSlots l) :=
  List.nodupDecidable _

/-- The error taxonomy of spec §7. -/
inductive Err where
  | NotFound
  | ValidationError
  | ConflictError
  | SlotTaken
  | InvalidTransition
  | InvalidState
deriving DecidableEq

/-- Does a patient with this id exist? -/
def hasPatient (db : DB) (pid : Nat) : Bool :=
  db.patients.any (fun p => p.patient_id == pid)

/-- Does a doctor with this id exist? -/
def hasDoctor (db : DB) (did : Nat) : Bool :=
  db.doctors.any (fun d => d.doctor_id == did)

/-- Does an appointment with this id exist? -/
def hasAppt (db : DB) (aid : Nat) : Bool :=
  db.appointments.any (fun a => a.appointment_id == aid)

/-- Look an appointment up by id. -/
def findAppt (db : DB) (aid : Nat) : Option Appointment :=
  db.appointments.find? (fun a => a.appointment_id == aid)

/-- Is some appointment row — of any status — occupying this slot?  This
is exactly what the schema's `unique_doctor_timeslot` key blocks an
insert on. -/
def slotOccupied (db : DB) (did date time : Nat) : Bool :=
  db.appointments.any (fun a =>
    a.doctor_id == did && a.appointment_date == date && a.appointment_time == time)

/-- Modelled from the spec: the Slot Ledger view of §4.2, "reserved ...
by a non-cancelled appointment".  The ledger holds a reservation for a
slot exactly when a non-Cancelled appointment occupies it (reservations
are released only on cancellation or on cascade deletion). -/
def slotReserved (db : DB) (did date time : Nat) : Bool :=
  db.appointments.any (fun a =>
    a.doctor_id == did && a.appointment_date == date && a.appointment_time == time
      && !(a.status == Status.cancelled))

/-- Fresh `AUTO_INCREMENT` id for a table, one past the largest in use. -/
def nextId (ids : List Nat) : Nat :=
  ids.foldr max 0 + 1

/-- Is an optional unique-column value already taken?  NULL values never
collide: a UNIQUE key in the schema constrains only non-NULL values. -/
def optTaken (v : Option String) (used : List (Option String)) : Bool :=
  match v with
  | none => false
  | some s => used.contains (some s)

/-- Input fields of `registerPatient` (everything but the generated id). -/
structure PatientFields where
  first_name : String
  last_name : String
  date_of_birth : Nat
  gender : Gender
  phone_number : Option String
  email : Option String
  address : Option String
deriving DecidableEq

/-- Input fields of `registerDoctor` / `updateDoctor`. -/
structure DoctorFields where
  first_name : String
  last_name : String
  specialization : String
  phone_number : Option String
  email : Option String
  license_number : String
  available : Bool
deriving DecidableEq

/-- Modelled from the spec: `registerPatient(fields)` of §4.1 (the engine
is not in the sources; the uniqueness checks are the `patients` table's
UNIQUE keys on `phone_number` and `email`).  A duplicate non-NULL unique
field fails with `ConflictError` and commits nothing. -/
def registerPatient (db : DB) (f : PatientFields) : Except Err DB :=
  if optTaken f.phone_number (db.patients.map (fun p => p.phone_number)) then
    .error .ConflictError
  else if optTaken f.email (db.patients.map (fun p => p.email)) then
    .error .ConflictError
  else
    .ok { db with patients :=
      ⟨nextId (db.patients.map (fun p => p.patient_id)), f.first_name, f.last_name,
        f.date_of_birth, f.gender, f.phone_number, f.email, f.address⟩ :: db.patients }

/-- Modelled from the spec: `registerDoctor(fields)` of §4.1; uniqueness
checks are the `doctors` table's UNIQUE keys on `phone_number`, `email`
and `license_number` (the latter NOT NULL, hence always checked). -/
def registerDoctor (db : DB) (f : DoctorFields) : Except Err DB :=
  if optTaken f.phone_number (db.doctors.map (fun d => d.phone_number)) then
    .error .ConflictError
  else if optTaken f.email (db.doctors.map (fun d => d.email)) then
    .error .ConflictError
  else if db.doctors.any (fun d => d.license_number == f.license_number) then
    .error .ConflictError
  else
    .ok { db with doctors :=
      ⟨nextId (db.doctors.map (fun d => d.doctor_id)), f.first_name, f.last_name,
        f.specialization, f.phone_number, f.email, f.license_number, f.available⟩
        :: db.doctors }

/-- All doctors other than the one with the given id (the rows an update
must not collide with). -/
def otherDoctors (db : DB) (did : Nat) : List Doctor :=
  db.doctors.filter (fun d => !(d.doctor_id == did))

/-- Modelled from the spec: `update(id, fields)` of §4.1 for a Doctor
(the engine is not in the sources).  The identity is immutable; the same
uniqueness checks as at registration apply against all OTHER doctors;
violating one fails with `ConflictError` and commits nothing. -/
def updateDoctor (db : DB) (did : Nat) (f : DoctorFields) : Except Err DB :=
  if !(hasDoctor db did) then .error .NotFound
  else if optTaken f.phone_number ((otherDoctors db did).map (fun d => d.phone_number)) then
    .error .ConflictError
  else if optTaken f.email ((otherDoctors db did).map (fun d => d.email)) then
    .error .ConflictError
  else if (otherDoctors db did).any (fun d => d.license_number == f.license_number) then
    .error .ConflictError
  else
    .ok { db with doctors := db.doctors.map (fun d =>
      if d.doctor_id == did then
        ⟨did, f.first_name, f.last_name, f.specialization, f.phone_number,
          f.email, f.license_number, f.available⟩
      else d) }

/-- `ON DELETE SET NULL` of `medical_records.appointment_id`: clear the
appointment reference when it points into the deleted set. -/
def clearApptRef (deleted : List Nat) (r : MedicalRecord) : MedicalRecord :=
  match r.appointment_id with
  | none => r
  | some aid => if deleted.contains aid then { r with appointment_id := none } else r

/-- Ids of the appointments of a given patient (the rows the schema's
`ON DELETE CASCADE` removes when the patient is deleted). -/
def apptIdsOfPatient (db : DB) (pid : Nat) : List Nat :=
  (db.appointments.filter (fun a => a.patient_id == pid)).map (fun a => a.appointment_id)

/-- Modelled from the spec: `delete(id)` of §4.1 for a Patient, with the
cascades the schema declares: appointments of the patient are removed
(`ON DELETE CASCADE` on `appointments.patient_id`), medical records of
the patient are removed (`ON DELETE CASCADE` on
`medical_records.patient_id`), and surviving medical records pointing at
a removed appointment get their reference cleared (`ON DELETE SET NULL`
on `medical_records.appointment_id`). -/
def deletePatient (db : DB) (pid : Nat) : Except Err DB :=
  if !(hasPatient db pid) then .error .NotFound
  else
    .ok { db with
      patients := db.patients.filter (fun p => !(p.patient_id == pid)),
      appointments := db.appointments.filter (fun a => !(a.patient_id == pid)),
      medical_records :=
        (db.medical_records.filter (fun r => !(r.patient_id == pid))).map
          (clearApptRef (apptIdsOfPatient db pid)) }

/-- Ids of the appointments of a given doctor (the rows the schema's
`ON DELETE CASCADE` removes when the doctor is deleted). -/
def apptIdsOfDoctor (db : DB) (did : Nat) : List Nat :=
  (db.appointments.filter (fun a => a.doctor_id == did)).map (fun a => a.appointment_id)

/-- Modelled from the spec: `delete(id)` of §4.1 for a Doctor, with the
schema's cascades, symmetric to `deletePatient`. -/
def deleteDoctor (db : DB) (did : Nat) : Except Err DB :=
  if !(hasDoctor db did) then .error .NotFound
  else
    .ok { db with
      doctors := db.doctors.filter (fun d => !(d.doctor_id == did)),
      appointments := db.appointments.filter (fun a => !(a.doctor_id == did)),
      medical_records :=
        (db.medical_records.filter (fun r => !(r.doctor_id == did))).map
          (clearApptRef (apptIdsOfDoctor db did)) }

/-- Deletion of a single appointment row, with the schema's
`ON DELETE SET NULL` action on `medical_records.appointment_id`: linked
records survive with their appointment reference cleared. -/
def deleteAppointment (db : DB) (aid : Nat) : Except Err DB :=
  if !(hasAppt db aid) then .error .NotFound
  else
    .ok { db with
      appointments := db.appointments.filter (fun a => !(a.appointment_id == aid)),
      medical_records := db.medical_records.map (clearApptRef [aid]) }

/-- Modelled from the spec: `book(patientId, doctorId, date, time,
reason)` of §4.3 (the Scheduler is not in the sources).  Step 1 resolves
patient and doctor (`NotFound`); step 2 checks the slot — the insert must
satisfy the schema's `unique_doctor_timeslot` key, which covers rows of
every status, so any existing row on the slot fails the booking with
`SlotTaken`; step 3 creates the Appointment in state Scheduled.  The
whole call is one transaction: on failure no state is produced. -/
def book (db : DB) (pid did date time : Nat) (reason : Option String) :
    Except Err DB :=
  if !(hasPatient db pid) then .error .NotFound
  else if !(hasDoctor db did) then .error .NotFound
  else if slotOccupied db did date time then .error .SlotTaken
  else
    .ok { db with appointments :=
      ⟨nextId (db.appointments.map (fun a => a.appointment_id)), pid, did,
        date, time, .scheduled, reason, none⟩ :: db.appointments }

/-- Modelled from the spec: `transition(appointmentId, newStatus)` of
§4.4 (the Lifecycle Manager is not in the sources).  The only defined
transitions leave Scheduled for Completed, Cancelled or No-show; any
other attempt fails with `InvalidTransition`. -/
def transition (db : DB) (aid : Nat) (s : Status) : Except Err DB :=
  match findAppt db aid with
  | none => .error .NotFound
  | some a =>
    if a.status == Status.scheduled && !(s == Status.scheduled) then
      .ok { db with appointments := db.appointments.map (fun b =>
        if b.appointment_id == aid then { b with status := s } else b) }
    else .error .InvalidTransition

/-- Modelled from the spec: `cancel(appointmentId)` of §4.3, the
transition to Cancelled; the ledger release is reflected in the derived
`slotReserved` view. -/
def cancel (db : DB) (aid : Nat) : Except Err DB :=
  transition db aid .cancelled

/-- Modelled from the spec: `createFromAppointment` of §4.5 (the Medical
Record Linker is not in the sources).  Requires the appointment to exist
and be Completed, failing with `InvalidState` otherwise; copies the
patient and doctor references from the appointment. -/
def createMedicalRecord (db : DB) (aid : Nat)
    (diagnosis prescription notes : Option String) (rdate : Nat) :
    Except Err DB :=
  match findAppt db aid with
  | none => .error .InvalidState
  | some a =>
    if a.status == Status.completed then
      .ok { db with medical_records :=
        ⟨nextId (db.medical_records.map (fun r => r.record_id)), a.patient_id,
          a.doctor_id, some aid, diagnosis, prescription, notes, rdate⟩
          :: db.medical_records }
    else .error .InvalidState

/-- The operations of the engine's external interface (§6). -/
inductive Op where
  | registerPatient (f : PatientFields)
  | registerDoctor (f : DoctorFields)
  | updateDoctor (did : Nat) (f : DoctorFields)
  | deletePatient (pid : Nat)
  | deleteDoctor (did : Nat)
  | deleteAppointment (aid : Nat)
  | book (pid did date time : Nat) (reason : Option String)
  | transition (aid : Nat) (s : Status)
  | cancel (aid : Nat)
  | createMedicalRecord (aid : Nat) (diagnosis prescription notes : Option String)
      (rdate : Nat)

/-- Dispatch one operation. -/
def applyOp (db : DB) : Op → Except Err DB
  | .registerPatient f => registerPatient db f
  | .registerDoctor f => registerDoctor db f
  | .updateDoctor did f => updateDoctor db did f
  | .deletePatient pid => deletePatient db pid
  | .deleteDoctor did => deleteDoctor db did
  | .deleteAppointment aid => deleteAppointment db aid
  | .book pid did date time reason => book db pid did date time reason
  | .transition aid s => transition db aid s
  | .cancel aid => cancel db aid
  | .createMedicalRecord aid d p n rd => createMedicalRecord db aid d p n rd

/-- Run one operation; a failed operation leaves the state unchanged
(every operation is a transaction, §5/§7). -/
def exec (db : DB) (op : Op) : DB :=
  match applyOp db op with
  | .ok db2 => db2
  | .error _ => db

/-- Run a sequence of operations from a starting state. -/
def execTrace (db : DB) : List Op → DB
  | [] => db
  | op :: ops => execTrace (exec db op) ops

/-- A state is reachable when some operation sequence produces it from
the empty database. -/
def Reachable (db : DB) : Prop :=
  ∃ ops : List Op, execTrace initDB ops = db

/-- The appointment rows occupying a given slot, of any status. -/
def slotRows (db : DB) (did date time : Nat) : List Appointment :=
  db.appointments.filter (fun a =>
    a.doctor_id == did && a.appointment_date == date && a.appointment_time == time)

/-- The non-Cancelled appointment rows occupying a given slot. -/
def nonCancelledSlotRows (db : DB) (did date time : Nat) : List Appointment :=
  db.appointments.filter (fun a =>
    a.doctor_id == did && a.appointment_date == date && a.appointment_time == time
      && !(a.status == Status.cancelled))

/-- Foreign-key integrity of the `appointments` table: every row
references an existing patient and an existing doctor. -/
def apptRefsOK (db : DB) : Prop :=
  ∀ a ∈ db.appointments, hasPatient db a.patient_id = true ∧ hasDoctor db a.doctor_id = true

/-- Foreign-key integrity of the `medical_records` table: every row
references an existing patient and doctor, and its optional appointment
reference, when present, points at an existing appointment. -/
def medRecRefsOK (db : DB) : Prop :=
  ∀ r ∈ db.medical_records,
    hasPatient db r.patient_id = true ∧ hasDoctor db r.doctor_id = true ∧
      ∀ aid, r.appointment_id = some aid → hasAppt db aid = true

/-- The schema's constraints that every reachable state satisfies. -/
def Inv (db : DB) : Prop :=
  apptRefsOK db ∧ medRecRefsOK db ∧ unique_doctor_timeslot db.appointments

theorem hasPatient_iff {db : DB} {pid : Nat} :
    hasPatient db pid = true ↔ ∃ p, p ∈ db.patients ∧ p.patient_id = pid := by
  simp [hasPatient]

theorem hasDoctor_iff {db : DB} {did : Nat} :
    hasDoctor db did = true ↔ ∃ d, d ∈ db.doctors ∧ d.doctor_id = did := by
  simp [hasDoctor]

theorem hasAppt_iff {db : DB} {aid : Nat} :
    hasAppt db aid = true ↔ ∃ a, a ∈ db.appointments ∧ a.appointment_id = aid := by
  simp [hasAppt]

theorem slotOccupied_iff {db : DB} {did date time : Nat} :
    slotOccupied db did date time = true ↔
      ∃ a, a ∈ db.appointments ∧ slotKey a = (did, date, time) := by
  simp [slotOccupied, slotKey, Prod.ext_iff, and_assoc]

theorem any_map_eq {α : Type} (g : α → α) (p : α → Bool) (l : List α)
    (h : ∀ a, p (g a) = p a) : (l.map g).any p = l.any p := by
  induction l with
  | nil => rfl
  | cons a l ih => simp only [List.map_cons, List.any_cons, h, ih]

theorem length_filter_le_one_of_nodup_map {α β : Type} [DecidableEq β] {f : α → β}
    {l : List α} (hn : (l.map f).Nodup) (p : α → Bool) (k : β)
    (hp : ∀ a, p a = true → f a = k) : (l.filter p).length ≤ 1 := by
  induction l with
  | nil => simp
  | cons a l ih =>
    rw [List.map_cons, List.nodup_cons] at hn
    by_cases hpa : p a = true
    · have hfa : f a = k := hp a hpa
      have hnil : l.filter p = [] := by
        rw [List.eq_nil_iff_forall_not_mem]
        intro b hb
        rw [List.mem_filter] at hb
        exact hn.1 (List.mem_map.mpr ⟨b, hb.1, (hp b hb.2).trans hfa.symm⟩)
      simp [List.filter_cons, hpa, hnil]
    · rw [List.filter_cons, if_neg hpa]
      exact ih hn.2

theorem hasPatient_consP {db : DB} {p : Patient} {x : Nat}
    (h : hasPatient db x = true) :
    hasPatient { db with patients := p :: db.patients } x = true := by
  rw [hasPatient_iff] at h ⊢
  obtain ⟨q, hq, he⟩ := h
  exact ⟨q, List.mem_cons_of_mem _ hq, he⟩

theorem hasDoctor_consD {db : DB} {d : Doctor} {x : Nat}
    (h : hasDoctor db x = true) :
    hasDoctor { db with doctors := d :: db.doctors } x = true := by
  rw [hasDoctor_iff] at h ⊢
  obtain ⟨q, hq, he⟩ := h
  exact ⟨q, List.mem_cons_of_mem _ hq, he⟩

theorem inv_registerPatient {db db2 : DB} {f : PatientFields} (h : Inv db)
    (hr : registerPatient db f = .ok db2) : Inv db2 := by
  unfold registerPatient at hr
  split at hr
  · simp at hr
  · split at hr
    · simp at hr
    · injection hr with h2
      subst h2
      obtain ⟨ha, hm, hu⟩ := h
      refine ⟨?_, ?_, hu⟩
      · intro a hmem
        exact ⟨hasPatient_consP (ha a hmem).1, (ha a hmem).2⟩
      · intro r hmem
        exact ⟨hasPatient_consP (hm r hmem).1, (hm r hmem).2.1, (hm r hmem).2.2⟩

theorem inv_registerDoctor {db db2 : DB} {f : DoctorFields} (h : Inv db)
    (hr : registerDoctor db f = .ok db2) : Inv db2 := by
  unfold registerDoctor at hr
  split at hr
  · simp at hr
  · split at hr
    · simp at hr
    · split at hr
      · simp at hr
      · injection hr with h2
        subst h2
        obtain ⟨ha, hm, hu⟩ := h
        refine ⟨?_, ?_, hu⟩
        · intro a hmem
          exact ⟨(ha a hmem).1, hasDoctor_consD (ha a hmem).2⟩
        · intro r hmem
          exact ⟨(hm r hmem).1, hasDoctor_consD (hm r hmem).2.1, (hm r hmem).2.2⟩

theorem inv_updateDoctor {db db2 : DB} {did : Nat} {f : DoctorFields} (h : Inv db)
    (hr : updateDoctor db did f = .ok db2) : Inv db2 := by
  unfold updateDoctor at hr
  split at hr
  · simp at hr
  · split at hr
    · simp at hr
    · split at hr
      · simp at hr
      · split at hr
        · simp at hr
        · injection hr with h2
          subst h2
          obtain ⟨ha, hm, hu⟩ := h
          have hdoc : ∀ x, hasDoctor { db with doctors := db.doctors.map (fun d =>
              if d.doctor_id == did then
                ⟨did, f.first_name, f.last_name, f.specialization, f.phone_number,
                  f.email, f.license_number, f.available⟩
              else d) } x = hasDoctor db x := by
            intro x
            show (db.doctors.map _).any _ = _
            refine any_map_eq _ _ _ ?_
            intro d
            by_cases hid : (d.doctor_id == did) = true
            · simp only [hid, if_pos]
              simp only [beq_iff_eq] at hid
              rw [hid]
            · simp only [hid, if_neg]
              simp at hid
              simp [hid]
          refine ⟨?_, ?_, hu⟩
          · intro a hmem
            exact ⟨(ha a hmem).1, by rw [hdoc]; exact (ha a hmem).2⟩
          · intro r hmem
            exact ⟨(hm r hmem).1, by rw [hdoc]; exact (hm r hmem).2.1, (hm r hmem).2.2⟩

theorem clearApptRef_patient (dead : List Nat) (r : MedicalRecord) :
    (clearApptRef dead r).patient_id = r.patient_id := by
  unfold clearApptRef
  split
  · rfl
  · split <;> rfl

theorem clearApptRef_doctor (dead : List Nat) (r : MedicalRecord) :
    (clearApptRef dead r).doctor_id = r.doctor_id := by
  unfold clearApptRef
  split
  · rfl
  · split <;> rfl

theorem clearApptRef_record (dead : List Nat) (r : MedicalRecord) :
    (clearApptRef dead r).record_id = r.record_id := by
  unfold clearApptRef
  split
  · rfl
  · split <;> rfl

theorem clearApptRef_some {dead : List Nat} {r : MedicalRecord} {aid : Nat}
    (h : (clearApptRef dead r).appointment_id = some aid) :
    r.appointment_id = some aid ∧ aid ∉ dead := by
  unfold clearApptRef at h
  split at h
  next he =>
    rw [he] at h
    simp at h
  next b he =>
    split at h
    next hc =>
      simp at h
    next hc =>
      refine ⟨h, ?_⟩
      rw [he] at h
      injection h with hba
      subst hba
      intro hmem
      exact hc (by simpa using hmem)

theorem inv_deletePatient {db db2 : DB} {pid : Nat} (h : Inv db)
    (hr : deletePatient db pid = .ok db2) : Inv db2 := by
  unfold deletePatient at hr
  split at hr
  · simp at hr
  · injection hr with h2
    subst h2
    obtain ⟨ha, hm, hu⟩ := h
    refine ⟨?_, ?_, ?_⟩
    · intro a hmem
      rw [List.mem_filter] at hmem
      obtain ⟨hmem, hne⟩ := hmem
      have hne2 : a.patient_id ≠ pid := by simpa using hne
      constructor
      · rw [hasPatient_iff]
        obtain ⟨p, hp1, hp2⟩ := hasPatient_iff.mp (ha a hmem).1
        exact ⟨p, List.mem_filter.mpr ⟨hp1, by simp [hp2, hne2]⟩, hp2⟩
      · exact (ha a hmem).2
    · intro r2 hmem
      rw [List.mem_map] at hmem
      obtain ⟨r, hrmem, hreq⟩ := hmem
      rw [List.mem_filter] at hrmem
      obtain ⟨hrmem, hrne⟩ := hrmem
      have hrne2 : r.patient_id ≠ pid := by simpa using hrne
      obtain ⟨hp, hd, happ⟩ := hm r hrmem
      subst hreq
      refine ⟨?_, ?_, ?_⟩
      · rw [clearApptRef_patient, hasPatient_iff]
        obtain ⟨p, hp1, hp2⟩ := hasPatient_iff.mp hp
        exact ⟨p, List.mem_filter.mpr ⟨hp1, by simp [hp2, hrne2]⟩, hp2⟩
      · rw [clearApptRef_doctor]; exact hd
      · intro aid haid
        obtain ⟨haid2, hdead⟩ := clearApptRef_some haid
        obtain ⟨a, ha1, ha2⟩ := hasAppt_iff.mp (happ aid haid2)
        rw [hasAppt_iff]
        refine ⟨a, List.mem_filter.mpr ⟨ha1, ?_⟩, ha2⟩
        simp only [Bool.not_eq_true', beq_eq_false_iff_ne, ne_eq]
        intro hap
        apply hdead
        rw [← ha2]
        unfold apptIdsOfPatient
        exact List.mem_map.mpr ⟨a, List.mem_filter.mpr ⟨ha1, by simp [hap]⟩, rfl⟩
    · exact List.Nodup.sublist ((List.filter_sublist _).map _) hu

theorem inv_deleteDoctor {db db2 : DB} {did : Nat} (h : Inv db)
    (hr : deleteDoctor db did = .ok db2) : Inv db2 := by
  unfold deleteDoctor at hr
  split at hr
  · simp at hr
  · injection hr with h2
    subst h2
    obtain ⟨ha, hm, hu⟩ := h
    refine ⟨?_, ?_, ?_⟩
    · intro a hmem
      rw [List.mem_filter] at hmem
      obtain ⟨hmem, hne⟩ := hmem
      have hne2 : a.doctor_id ≠ did := by simpa using hne
      constructor
      · exact (ha a hmem).1
      · rw [hasDoctor_iff]
        obtain ⟨d, hd1, hd2⟩ := hasDoctor_iff.mp (ha a hmem).2
        exact ⟨d, List.mem_filter.mpr ⟨hd1, by simp [hd2, hne2]⟩, hd2⟩
    · intro r2 hmem
      rw [List.mem_map] at hmem
      obtain ⟨r, hrmem, hreq⟩ := hmem
      rw [List.mem_filter] at hrmem
      obtain ⟨hrmem, hrne⟩ := hrmem
      have hrne2 : r.doctor_id ≠ did := by simpa using hrne
      obtain ⟨hp, hd, happ⟩ := hm r hrmem
      subst hreq
      refine ⟨?_, ?_, ?_⟩
      · rw [clearApptRef_patient]; exact hp
      · rw [clearApptRef_doctor, hasDoctor_iff]
        obtain ⟨d, hd1, hd2⟩ := hasDoctor_iff.mp hd
        exact ⟨d, List.mem_filter.mpr ⟨hd1, by simp [hd2, hrne2]⟩, hd2⟩
      · intro aid haid
        obtain ⟨haid2, hdead⟩ := clearApptRef_some haid
        obtain ⟨a, ha1, ha2⟩ := hasAppt_iff.mp (happ aid haid2)
        rw [hasAppt_iff]
        refine ⟨a, List.mem_filter.mpr ⟨ha1, ?_⟩, ha2⟩
        simp only [Bool.not_eq_true', beq_eq_false_iff_ne, ne_eq]
        intro hap
        apply hdead
        rw [← ha2]
        unfold apptIdsOfDoctor
        exact List.mem_map.mpr ⟨a, List.mem_filter.mpr ⟨ha1, by simp [hap]⟩, rfl⟩
    · exact List.Nodup.sublist ((List.filter_sublist _).map _) hu

theorem inv_deleteAppointment {db db2 : DB} {aid : Nat} (h : Inv db)
    (hr : deleteAppointment db aid = .ok db2) : Inv db2 := by
  unfold deleteAppointment at hr
  split at hr
  · simp at hr
  · injection hr with h2
    subst h2
    obtain ⟨ha, hm, hu⟩ := h
    refine ⟨?_, ?_, ?_⟩
    · intro a hmem
      rw [List.mem_filter] at hmem
      exact ⟨(ha a hmem.1).1, (ha a hmem.1).2⟩
    · intro r2 hmem
      rw [List.mem_map] at hmem
      obtain ⟨r, hrmem, hreq⟩ := hmem
      obtain ⟨hp, hd, happ⟩ := hm r hrmem
      subst hreq
      refine ⟨?_, ?_, ?_⟩
      · rw [clearApptRef_patient]; exact hp
      · rw [clearApptRef_doctor]; exact hd
      · intro x hx
        obtain ⟨hx2, hxdead⟩ := clearApptRef_some hx
        obtain ⟨a, ha1, ha2⟩ := hasAppt_iff.mp (happ x hx2)
        rw [hasAppt_iff]
        refine ⟨a, List.mem_filter.mpr ⟨ha1, ?_⟩, ha2⟩
        simp only [Bool.not_eq_true', beq_eq_false_iff_ne, ne_eq]
        intro hax
        exact hxdead (by simp [← ha2, hax])
    · exact List.Nodup.sublist ((List.filter_sublist _).map _) hu

theorem hasAppt_consA {db : DB} {a : Appointment} {x : Nat} (h : hasAppt db x = true) :
    hasAppt { db with appointments := a :: db.appointments } x = true := by
  rw [hasAppt_iff] at h ⊢
  obtain ⟨b, hb, he⟩ := h
  exact ⟨b, List.mem_cons_of_mem _ hb, he⟩

theorem inv_book {db db2 : DB} {pid did date time : Nat} {reason : Option String}
    (h : Inv db) (hr : book db pid did date time reason = .ok db2) : Inv db2 := by
  unfold book at hr
  split at hr
  next hg1 => simp at hr
  next hg1 =>
    split at hr
    next hg2 => simp at hr
    next hg2 =>
      split at hr
      next hg3 => simp at hr
      next hg3 =>
        injection hr with h2
        subst h2
        obtain ⟨ha, hm, hu⟩ := h
        have hp1 : hasPatient db pid = true := by simpa using hg1
        have hd1 : hasDoctor db did = true := by simpa using hg2
        refine ⟨?_, ?_, ?_⟩
        · intro a hmem
          rcases List.mem_cons.mp hmem with hnew | hold
          · subst hnew
            exact ⟨hp1, hd1⟩
          · exact ⟨(ha a hold).1, (ha a hold).2⟩
        · intro r hrm
          exact ⟨(hm r hrm).1, (hm r hrm).2.1, fun x hx => hasAppt_consA ((hm r hrm).2.2 x hx)⟩
        · refine List.nodup_cons.mpr ⟨?_, hu⟩
          intro hmem
          rw [List.mem_map] at hmem
          obtain ⟨a, ham, hak⟩ := hmem
          have : slotOccupied db did date time = true :=
            slotOccupied_iff.mpr ⟨a, ham, hak⟩
          simp [this] at hg3

theorem statusMap_appt (aid : Nat) (s : Status) (b : Appointment) :
    (if b.appointment_id == aid then { b with status := s } else b).appointment_id
      = b.appointment_id := by
  split <;> rfl

theorem statusMap_patient (aid : Nat) (s : Status) (b : Appointment) :
    (if b.appointment_id == aid then { b with status := s } else b).patient_id
      = b.patient_id := by
  split <;> rfl

theorem statusMap_doctor (aid : Nat) (s : Status) (b : Appointment) :
    (if b.appointment_id == aid then { b with status := s } else b).doctor_id
      = b.doctor_id := by
  split <;> rfl

theorem statusMap_slotKey (aid : Nat) (s : Status) (b : Appointment) :
    slotKey (if b.appointment_id == aid then { b with status := s } else b)
      = slotKey b := by
  unfold slotKey
  split <;> rfl

theorem map_slotKey_statusMap (aid : Nat) (s : Status) (l : List Appointment) :
    (l.map (fun b => if b.appointment_id == aid then { b with status := s } else b)).map
      slotKey = l.map slotKey := by
  induction l with
  | nil => rfl
  | cons b l ih => simp only [List.map_cons, ih, statusMap_slotKey]

theorem inv_transition {db db2 : DB} {aid : Nat} {s : Status} (h : Inv db)
    (hr : transition db aid s = .ok db2) : Inv db2 := by
  unfold transition at hr
  split at hr
  next hf => simp at hr
  next a hf =>
    split at hr
    next hcond =>
      injection hr with h2
      subst h2
      obtain ⟨ha, hm, hu⟩ := h
      have happt : ∀ x, hasAppt { db with appointments := db.appointments.map (fun b =>
          if b.appointment_id == aid then { b with status := s } else b) } x
            = hasAppt db x := by
        intro x
        show (db.appointments.map _).any _ = _
        refine any_map_eq _ _ _ ?_
        intro b
        rw [statusMap_appt]
      refine ⟨?_, ?_, ?_⟩
      · intro a2 hmem
        rw [List.mem_map] at hmem
        obtain ⟨b, hb, hbe⟩ := hmem
        subst hbe
        rw [statusMap_patient, statusMap_doctor]
        exact ⟨(ha b hb).1, (ha b hb).2⟩
      · intro r hrm
        exact ⟨(hm r hrm).1, (hm r hrm).2.1,
          fun x hx => by rw [happt]; exact (hm r hrm).2.2 x hx⟩
      · show ((db.appointments.map _).map slotKey).Nodup
        rw [map_slotKey_statusMap]
        exact hu
    next hcond => simp at hr

theorem inv_createMedicalRecord {db db2 : DB} {aid : Nat} {d p n : Option String}
    {rd : Nat} (h : Inv db) (hr : createMedicalRecord db aid d p n rd = .ok db2) :
    Inv db2 := by
  unfold createMedicalRecord at hr
  split at hr
  next hf => simp at hr
  next a hf =>
    split at hr
    next hst =>
      injection hr with h2
      subst h2
      obtain ⟨ha, hm, hu⟩ := h
      have hamem : a ∈ db.appointments := List.mem_of_find?_eq_some hf
      have haid : a.appointment_id = aid := by
        have := List.find?_some hf
        simpa using this
      refine ⟨ha, ?_, hu⟩
      intro r hrm
      rcases List.mem_cons.mp hrm with hnew | hold
      · subst hnew
        refine ⟨(ha a hamem).1, (ha a hamem).2, ?_⟩
        intro x hx
        injection hx with hx2
        subst hx2
        exact hasAppt_iff.mpr ⟨a, hamem, haid⟩
      · exact ⟨(hm r hold).1, (hm r hold).2.1, (hm r hold).2.2⟩
    next hst => simp at hr

theorem inv_exec (db : DB) (op : Op) (h : Inv db) : Inv (exec db op) := by
  cases hop : applyOp db op with
  | error e =>
    simpa [exec, hop] using h
  | ok db2 =>
    have he : exec db op = db2 := by simp [exec, hop]
    rw [he]
    cases op with
    | registerPatient f => exact inv_registerPatient h hop
    | registerDoctor f => exact inv_registerDoctor h hop
    | updateDoctor did f => exact inv_updateDoctor h hop
    | deletePatient pid => exact inv_deletePatient h hop
    | deleteDoctor did => exact inv_deleteDoctor h hop
    | deleteAppointment aid => exact inv_deleteAppointment h hop
    | book pid did date time reason => exact inv_book h hop
    | transition aid s => exact inv_transition h hop
    | cancel aid => exact inv_transition h hop
    | createMedicalRecord aid d p n rd => exact inv_createMedicalRecord h hop

theorem inv_execTrace (db : DB) (ops : List Op) (h : Inv db) :
    Inv (execTrace db ops) := by
  induction ops generalizing db with
  | nil => exact h
  | cons op ops ih => exact ih _ (inv_exec db op h)

theorem inv_init : Inv initDB := by
  refine ⟨?_, ?_, ?_⟩
  · intro x hx
    simp [initDB] at hx
  · intro x hx
    simp [initDB] at hx
  · simp [initDB, unique_doctor_timeslot]

theorem inv_reachable {db : DB} (h : Reachable db) : Inv db := by
  obtain ⟨ops, rfl⟩ := h
  exact inv_execTrace _ _ inv_init

theorem statusMap_date (aid : Nat) (s : Status) (b : Appointment) :
    (if b.appointment_id == aid then { b with status := s } else b).appointment_date
      = b.appointment_date := by
  split <;> rfl

theorem statusMap_time (aid : Nat) (s : Status) (b : Appointment) :
    (if b.appointment_id == aid then { b with status := s } else b).appointment_time
      = b.appointment_time := by
  split <;> rfl

theorem book_slotTaken {db : DB} {pid did date time : Nat} {r : Option String}
    (hp : hasPatient db pid = true) (hd : hasDoctor db did = true)
    (ho : slotOccupied db did date time = true) :
    book db pid did date time r = .error .SlotTaken := by
  unfold book
  simp [hp, hd, ho]

theorem book_ok {db db2 : DB} {pid did date time : Nat} {r : Option String}
    (hb : book db pid did date time r = .ok db2) :
    hasPatient db pid = true ∧ hasDoctor db did = true ∧
      slotOccupied db did date time = false ∧
      db2 = { db with appointments :=
        ⟨nextId (db.appointments.map (fun a => a.appointment_id)), pid, did, date,
          time, .scheduled, r, none⟩ :: db.appointments } := by
  unfold book at hb
  split at hb
  next h1 => simp at hb
  next h1 =>
    split at hb
    next h2 => simp at hb
    next h2 =>
      split at hb
      next h3 => simp at hb
      next h3 =>
        injection hb with h4
        exact ⟨by simpa using h1, by simpa using h2, by simpa using h3, h4.symm⟩

theorem transition_ok {db db2 : DB} {aid : Nat} {s : Status}
    (ht : transition db aid s = .ok db2) :
    db2.patients = db.patients ∧ db2.doctors = db.doctors ∧
      db2.medical_records = db.medical_records ∧
      db2.appointments = db.appointments.map (fun b =>
        if b.appointment_id == aid then { b with status := s } else b) := by
  unfold transition at ht
  split at ht
  next hf => simp at ht
  next a hf =>
    split at ht
    next hc =>
      injection ht with h4
      subst h4
      exact ⟨rfl, rfl, rfl, rfl⟩
    next hc => simp at ht

theorem slotOccupied_transition {db db2 : DB} {aid : Nat} {s : Status}
    (ht : transition db aid s = .ok db2) (x y z : Nat) :
    slotOccupied db2 x y z = slotOccupied db x y z := by
  obtain ⟨-, -, -, happ⟩ := transition_ok ht
  unfold slotOccupied
  rw [happ]
  refine any_map_eq _ _ _ ?_
  intro b
  simp only [statusMap_doctor, statusMap_date, statusMap_time]

/-- Concrete fixture: a patient with absent phone and email. -/
def pf1 : PatientFields := ⟨"Ana", "Reyes", 19900101, .female, none, none, none⟩

/-- Concrete fixture: a second patient, also with absent phone and email. -/
def pf2 : PatientFields := ⟨"Eve", "Li", 19851215, .other, none, none, none⟩

/-- Concrete fixture: a doctor with license L100. -/
def df1 : DoctorFields := ⟨"Ben", "Cho", "GP", none, none, "L100", true⟩

/-- Concrete fixture: a second doctor with license L200. -/
def df2 : DoctorFields := ⟨"Dee", "Khan", "ENT", none, none, "L200", true⟩

def opsBase : List Op := [.registerPatient pf1, .registerDoctor df1]

def dbBase : DB := execTrace initDB opsBase

def opsBooked : List Op := opsBase ++ [.book 1 1 20240301 900 none]

def dbBooked : DB := execTrace initDB opsBooked

def opsCancelled : List Op := opsBooked ++ [.cancel 1]

def dbCancelled : DB := execTrace initDB opsCancelled

def opsRecorded : List Op :=
  opsBooked ++ [.transition 1 .completed, .createMedicalRecord 1 none none none 20240302]

def dbRecorded : DB := execTrace initDB opsRecorded

/-- Claim C1 counterexample: The claim reads the slot-uniqueness constraint
as excluding Cancelled appointments.  The schema's actual key
`unique_doctor_timeslot` has no status restriction: this concrete table —
one Cancelled and one Scheduled appointment on the same (doctor, date,
time) — satisfies the claim's non-Cancelled reading yet violates the
schema's constraint, so a Cancelled appointment DOES still occupy the
slot for the table constraint. -/
theorem c1_counterexample :
    uniqueNonCancelledSlots
        [⟨1, 1, 1, 20240301, 900, .cancelled, none, none⟩,
         ⟨2, 1, 1, 20240301, 900, .scheduled, none, none⟩] ∧
      ¬ unique_doctor_timeslot
        [⟨1, 1, 1, 20240301, 900, .cancelled, none, none⟩,
         ⟨2, 1, 1, 20240301, 900, .scheduled, none, none⟩] := by
  constructor <;> decide

/-- Claim C1, amended: At every reachable state, at most one appointment
row — of ANY status, Cancelled included — occupies a given (doctor, date,
time) slot; in particular at most one non-Cancelled appointment does.
The schema's uniqueness constraint does not exclude Cancelled rows, so a
Cancelled appointment still occupies its slot under the table
constraint. -/
theorem c1_slot_uniqueness (db : DB) (h : Reachable db) (did date time : Nat) :
    (slotRows db did date time).length ≤ 1 ∧
      (nonCancelledSlotRows db did date time).length ≤ 1 := by
  obtain ⟨-, -, hu⟩ := inv_reachable h
  constructor
  · unfold slotRows
    refine length_filter_le_one_of_nodup_map hu _ (did, date, time) ?_
    intro a hpa
    simp only [Bool.and_eq_true, beq_iff_eq] at hpa
    obtain ⟨⟨h1, h2⟩, h3⟩ := hpa
    simp [slotKey, h1, h2, h3]
  · unfold nonCancelledSlotRows
    refine length_filter_le_one_of_nodup_map hu _ (did, date, time) ?_
    intro a hpa
    simp only [Bool.and_eq_true, beq_iff_eq] at hpa
    obtain ⟨⟨⟨h1, h2⟩, h3⟩, -⟩ := hpa
    simp [slotKey, h1, h2, h3]

/-- Claim C1 witness: the uniqueness bound evaluated at a concrete
reachable state holding one booked appointment. -/
theorem c1_slot_uniqueness_witness :
    (slotRows dbBooked 1 20240301 900).length ≤ 1 ∧
      (nonCancelledSlotRows dbBooked 1 20240301 900).length ≤ 1 :=
  c1_slot_uniqueness dbBooked ⟨opsBooked, rfl⟩ 1 20240301 900

/-- Claim C2 counterexample: The claim says a cancelled slot is immediately
bookable again.  On the concrete scenario of the spec (§8) the cancel
does commit — the appointment row is Cancelled — yet rebooking the
identical (doctor, date, time) fails with `SlotTaken`, because the
surviving Cancelled row still occupies the schema's
`unique_doctor_timeslot` key. -/
theorem c2_counterexample :
    findAppt dbCancelled 1 = some ⟨1, 1, 1, 20240301, 900, .cancelled, none, none⟩ ∧
      book dbCancelled 1 1 20240301 900 none = .error .SlotTaken := by
  constructor <;> rfl

/-- Claim C2, amended: After a successful booking, any further booking of
the identical (doctor, date, time) fails with `SlotTaken`; and after
cancelling, rebooking the identical slot STILL fails with `SlotTaken` —
the Cancelled row keeps occupying the schema's unconditional unique key,
so cancellation does not make the slot bookable again while the row
exists. -/
theorem c2_slot_reuse {db db2 : DB} {pid did date time : Nat} {r : Option String}
    (hb : book db pid did date time r = .ok db2) :
    (∀ pid2 r2, hasPatient db2 pid2 = true →
      book db2 pid2 did date time r2 = .error .SlotTaken) ∧
    (∀ aid db3, cancel db2 aid = .ok db3 →
      ∀ pid3 r3, hasPatient db3 pid3 = true →
        book db3 pid3 did date time r3 = .error .SlotTaken) := by
  obtain ⟨hp, hd, ho, hdb2⟩ := book_ok hb
  subst hdb2
  have hd2 : hasDoctor { db with appointments :=
      ⟨nextId (db.appointments.map (fun a => a.appointment_id)), pid, did, date,
        time, .scheduled, r, none⟩ :: db.appointments } did = true := hd
  have ho2 : slotOccupied { db with appointments :=
      ⟨nextId (db.appointments.map (fun a => a.appointment_id)), pid, did, date,
        time, .scheduled, r, none⟩ :: db.appointments } did date time = true := by
    unfold slotOccupied
    rw [List.any_cons]
    simp
  constructor
  · intro pid2 r2 hp2
    exact book_slotTaken hp2 hd2 ho2
  · intro aid db3 hc pid3 r3 hp3
    unfold cancel at hc
    obtain ⟨-, hdoc, -, -⟩ := transition_ok hc
    have hd3 : hasDoctor db3 did = true := by
      unfold hasDoctor
      rw [hdoc]
      exact hd2
    have ho3 : slotOccupied db3 did date time = true := by
      rw [slotOccupied_transition hc]
      exact ho2
    exact book_slotTaken hp3 hd3 ho3

/-- Claim C2 witness: on the concrete scenario state, double booking fails
with `SlotTaken`, and rebooking after the cancel also fails with
`SlotTaken`. -/
theorem c2_slot_reuse_witness :
    book dbBooked 1 1 20240301 900 none = .error .SlotTaken ∧
      book dbCancelled 1 1 20240301 900 none = .error .SlotTaken := by
  have hb : book dbBase 1 1 20240301 900 none = .ok dbBooked := rfl
  have h := c2_slot_reuse hb
  refine ⟨h.1 1 none rfl, ?_⟩
  have hc : cancel dbBooked 1 = .ok dbCancelled := rfl
  exact h.2 1 dbCancelled hc 1 none rfl

/-- Claim C3 counterexample: The claim says a MedicalRecord linked to a
deleted party's Appointment survives every cascade with its appointment
reference cleared.  In the schema, `medical_records.patient_id` carries
`ON DELETE CASCADE`: deleting Patient 1 deletes the linked record
outright instead of detaching it. -/
theorem c3_counterexample :
    dbRecorded.medical_records =
        [⟨1, 1, 1, some 1, none, none, none, 20240302⟩] ∧
      (exec dbRecorded (Op.deletePatient 1)).medical_records = [] := by
  constructor <;> rfl

/-- Claim C3, amended: Deleting a Patient removes all their Appointments
and releases the corresponding slots, but ALSO cascade-deletes every
MedicalRecord whose patient is the deleted one (the schema's
`ON DELETE CASCADE` on `medical_records.patient_id`); records of other
patients survive, and a surviving record pointing at a removed
appointment has its reference cleared (no dangling reference remains).
Symmetrically, deleting a Doctor removes their Appointments and their
MedicalRecords.  Only direct Appointment deletion is record-preserving:
it never deletes a MedicalRecord, only clears references to the deleted
appointment. -/
theorem c3_cascade (db : DB) (hI : Inv db) :
    (∀ pid db2, deletePatient db pid = .ok db2 →
      db2.appointments.all (fun a => !(a.patient_id == pid)) = true ∧
      db2.medical_records.all (fun r => !(r.patient_id == pid)) = true ∧
      (db.medical_records.filter (fun r => !(r.patient_id == pid))).all
        (fun r => db2.medical_records.any (fun r2 => r2.record_id == r.record_id))
          = true ∧
      db2.medical_records.all (fun r2 =>
        match r2.appointment_id with
        | none => true
        | some aid => hasAppt db2 aid) = true ∧
      ∀ a ∈ db.appointments, a.patient_id = pid →
        slotOccupied db2 a.doctor_id a.appointment_date a.appointment_time = false) ∧
    (∀ did db2, deleteDoctor db did = .ok db2 →
      db2.appointments.all (fun a => !(a.doctor_id == did)) = true ∧
      db2.medical_records.all (fun r => !(r.doctor_id == did)) = true) ∧
    (∀ aid db2, deleteAppointment db aid = .ok db2 →
      db2.medical_records.length = db.medical_records.length ∧
      ∀ r ∈ db.medical_records, clearApptRef [aid] r ∈ db2.medical_records) := by
  obtain ⟨hA, hM, hu⟩ := hI
  refine ⟨?_, ?_, ?_⟩
  · intro pid db2 hdel
    have hInv2 := inv_deletePatient ⟨hA, hM, hu⟩ hdel
    unfold deletePatient at hdel
    split at hdel
    next hg => simp at hdel
    next hg =>
      injection hdel with h2
      subst h2
      refine ⟨?_, ?_, ?_, ?_, ?_⟩
      · rw [List.all_eq_true]
        intro a ha
        exact (List.mem_filter.mp ha).2
      · rw [List.all_eq_true]
        intro r2 hr2
        rw [List.mem_map] at hr2
        obtain ⟨r, hr, hre⟩ := hr2
        subst hre
        rw [clearApptRef_patient]
        exact (List.mem_filter.mp hr).2
      · rw [List.all_eq_true]
        intro r hr
        rw [List.any_eq_true]
        refine ⟨clearApptRef (apptIdsOfPatient db pid) r,
          List.mem_map.mpr ⟨r, hr, rfl⟩, ?_⟩
        rw [clearApptRef_record]
        simp
      · rw [List.all_eq_true]
        intro r2 hr2
        obtain ⟨-, hm2, -⟩ := hInv2
        cases har : r2.appointment_id with
        | none => simp only [har]
        | some aid =>
          simp only [har]
          exact (hm2 r2 hr2).2.2 aid har
      · intro a ha hapid
        rw [Bool.eq_false_iff]
        intro hoc
        obtain ⟨b, hb, hbk⟩ := slotOccupied_iff.mp hoc
        rw [List.mem_filter] at hb
        have hba : b = a := List.inj_on_of_nodup_map hu hb.1 ha hbk
        obtain ⟨hb1, hb2⟩ := hb
        rw [hba] at hb2
        simp [hapid] at hb2
  · intro did db2 hdel
    unfold deleteDoctor at hdel
    split at hdel
    next hg => simp at hdel
    next hg =>
      injection hdel with h2
      subst h2
      constructor
      · rw [List.all_eq_true]
        intro a ha
        exact (List.mem_filter.mp ha).2
      · rw [List.all_eq_true]
        intro r2 hr2
        rw [List.mem_map] at hr2
        obtain ⟨r, hr, hre⟩ := hr2
        subst hre
        rw [clearApptRef_doctor]
        exact (List.mem_filter.mp hr).2
  · intro aid db2 hdel
    unfold deleteAppointment at hdel
    split at hdel
    next hg => simp at hdel
    next hg =>
      injection hdel with h2
      subst h2
      refine ⟨List.length_map _ _, ?_⟩
      intro r hr
      exact List.mem_map_of_mem _ hr

/-- Claim C3 witness: the amended cascade behavior evaluated on a concrete
reachable state — patient deletion purges their appointments and records;
appointment deletion keeps the record, detached. -/
theorem c3_cascade_witness :
    (exec dbRecorded (Op.deletePatient 1)).appointments.all
        (fun a => !(a.patient_id == 1)) = true ∧
      (exec dbRecorded (Op.deletePatient 1)).medical_records.all
        (fun r => !(r.patient_id == 1)) = true ∧
      (exec dbRecorded (Op.deleteAppointment 1)).medical_records.length
        = dbRecorded.medical_records.length ∧
      clearApptRef [1] ⟨1, 1, 1, some 1, none, none, none, 20240302⟩
        ∈ (exec dbRecorded (Op.deleteAppointment 1)).medical_records := by
  have h := c3_cascade dbRecorded (inv_reachable ⟨opsRecorded, rfl⟩)
  have hdp : deletePatient dbRecorded 1 = .ok (exec dbRecorded (Op.deletePatient 1)) := rfl
  have hda : deleteAppointment dbRecorded 1
      = .ok (exec dbRecorded (Op.deleteAppointment 1)) := rfl
  obtain ⟨hP, hD, hApp⟩ := h
  obtain ⟨w1, w2, -, -, -⟩ := hP 1 _ hdp
  obtain ⟨w3, w4⟩ := hApp 1 _ hda
  exact ⟨w1, w2, w3, w4 _ (by decide)⟩

/-- Claim C4: Completed, Cancelled and No-show are terminal states — any
transition attempt out of one of them fails with `InvalidTransition` and
leaves the database unchanged. -/
theorem c4_terminal {db : DB} {aid : Nat} {a : Appointment} {s : Status}
    (hf : findAppt db aid = some a)
    (hst : a.status = .completed ∨ a.status = .cancelled ∨ a.status = .noShow) :
    transition db aid s = .error .InvalidTransition ∧
      exec db (Op.transition aid s) = db := by
  have hne : (a.status == Status.scheduled) = false := by
    rcases hst with h | h | h <;> rw [h] <;> rfl
  have ht : transition db aid s = .error .InvalidTransition := by
    unfold transition
    rw [hf]
    simp [hne]
  exact ⟨ht, by simp [exec, applyOp, ht]⟩

/-- Claim C4 witness: attempts out of a Completed and out of a Cancelled
appointment both fail and change nothing. -/
theorem c4_terminal_witness :
    (transition dbRecorded 1 .scheduled = .error .InvalidTransition ∧
      exec dbRecorded (Op.transition 1 .scheduled) = dbRecorded) ∧
    (transition dbCancelled 1 .completed = .error .InvalidTransition ∧
      exec dbCancelled (Op.transition 1 .completed) = dbCancelled) :=
  ⟨c4_terminal (a := ⟨1, 1, 1, 20240301, 900, .completed, none, none⟩) rfl (Or.inl rfl),
   c4_terminal (a := ⟨1, 1, 1, 20240301, 900, .cancelled, none, none⟩) rfl
     (Or.inr (Or.inl rfl))⟩

/-- Claim C5: registering a second Doctor with an already-used license
number fails with `ConflictError` and commits nothing — the existing
doctor's stored row is untouched; the same uniqueness check applies at
update time against all other doctors. -/
theorem c5_license_conflict {db : DB} {d : Doctor} {f : DoctorFields}
    (hd : d ∈ db.doctors) (hl : f.license_number = d.license_number) :
    (registerDoctor db f = .error .ConflictError ∧
      exec db (Op.registerDoctor f) = db) ∧
    ∀ did, hasDoctor db did = true → d.doctor_id ≠ did →
      updateDoctor db did f = .error .ConflictError ∧
        exec db (Op.updateDoctor did f) = db := by
  have hany : db.doctors.any (fun x => x.license_number == f.license_number) = true := by
    rw [List.any_eq_true]
    exact ⟨d, hd, by simp [hl]⟩
  have hreg : registerDoctor db f = .error .ConflictError := by
    unfold registerDoctor
    by_cases hA : optTaken f.phone_number (db.doctors.map (fun x => x.phone_number)) = true
    · simp [hA]
    · by_cases hB : optTaken f.email (db.doctors.map (fun x => x.email)) = true
      · simp [hA, hB]
      · simp [hA, hB, hany]
  have hup : ∀ did, hasDoctor db did = true → d.doctor_id ≠ did →
      updateDoctor db did f = .error .ConflictError := by
    intro did hhd hne
    have hany2 : (otherDoctors db did).any
        (fun x => x.license_number == f.license_number) = true := by
      rw [List.any_eq_true]
      refine ⟨d, ?_, by simp [hl]⟩
      unfold otherDoctors
      rw [List.mem_filter]
      exact ⟨hd, by simp [hne]⟩
    unfold updateDoctor
    by_cases hA : optTaken f.phone_number
        ((otherDoctors db did).map (fun x => x.phone_number)) = true
    · simp [hhd, hA]
    · by_cases hB : optTaken f.email
          ((otherDoctors db did).map (fun x => x.email)) = true
      · simp [hhd, hA, hB]
      · simp [hhd, hA, hB, hany2]
  exact ⟨⟨hreg, by simp [exec, applyOp, hreg]⟩,
    fun did h1 h2 => ⟨hup did h1 h2, by simp [exec, applyOp, hup did h1 h2]⟩⟩

def opsTwoDoctors : List Op := [.registerDoctor df1, .registerDoctor df2]

def dbTwoDoctors : DB := execTrace initDB opsTwoDoctors

/-- Claim C5 witness: with doctors L100 and L200 registered, re-registering
license L200 fails with `ConflictError` and changes nothing, and updating
doctor 1 to license L200 fails the same way. -/
theorem c5_license_conflict_witness :
    (registerDoctor dbTwoDoctors df2 = .error .ConflictError ∧
      exec dbTwoDoctors (Op.registerDoctor df2) = dbTwoDoctors) ∧
    (updateDoctor dbTwoDoctors 1 df2 = .error .ConflictError ∧
      exec dbTwoDoctors (Op.updateDoctor 1 df2) = dbTwoDoctors) := by
  have h := @c5_license_conflict dbTwoDoctors
      ⟨2, "Dee", "Khan", "ENT", none, none, "L200", true⟩ df2 (by decide) rfl
  exact ⟨h.1, h.2 1 rfl (by decide)⟩

def opsCompleted : List Op := opsBooked ++ [.transition 1 .completed]

def dbCompleted : DB := execTrace initDB opsCompleted

/-- Claim C6: `createFromAppointment` succeeds exactly on an existing
Completed appointment, copying its patient and doctor references into the
new record; in every other case (absent appointment, or status Scheduled,
Cancelled or No-show) it fails with `InvalidState` and creates nothing. -/
theorem c6_createFromAppointment (db : DB) (aid : Nat) (d p n : Option String)
    (rd : Nat) :
    (∀ a, findAppt db aid = some a → a.status = Status.completed →
      createMedicalRecord db aid d p n rd = .ok { db with medical_records :=
        ⟨nextId (db.medical_records.map (fun r => r.record_id)), a.patient_id,
          a.doctor_id, some aid, d, p, n, rd⟩ :: db.medical_records }) ∧
    (findAppt db aid = none →
      createMedicalRecord db aid d p n rd = .error .InvalidState ∧
        exec db (Op.createMedicalRecord aid d p n rd) = db) ∧
    (∀ a, findAppt db aid = some a → a.status ≠ Status.completed →
      createMedicalRecord db aid d p n rd = .error .InvalidState ∧
        exec db (Op.createMedicalRecord aid d p n rd) = db) := by
  refine ⟨?_, ?_, ?_⟩
  · intro a hf hst
    unfold createMedicalRecord
    rw [hf]
    simp [hst]
  · intro hf
    have hc : createMedicalRecord db aid d p n rd = .error .InvalidState := by
      unfold createMedicalRecord
      rw [hf]
    exact ⟨hc, by simp [exec, applyOp, hc]⟩
  · intro a hf hst
    have hc : createMedicalRecord db aid d p n rd = .error .InvalidState := by
      unfold createMedicalRecord
      rw [hf]
      have hb : (a.status == Status.completed) = false := by simpa using hst
      simp [hb]
    exact ⟨hc, by simp [exec, applyOp, hc]⟩

/-- Claim C6 witness: creating a record from the Completed appointment of a
concrete state succeeds (yielding exactly the recorded state), and the
same call on a still-Scheduled appointment fails with `InvalidState`. -/
theorem c6_createFromAppointment_witness :
    createMedicalRecord dbCompleted 1 none none none 20240302 = .ok dbRecorded ∧
      createMedicalRecord dbBooked 1 none none none 20240302
        = .error .InvalidState := by
  have h1 := (c6_createFromAppointment dbCompleted 1 none none none 20240302).1
      ⟨1, 1, 1, 20240301, 900, .completed, none, none⟩ rfl rfl
  have h2 := (c6_createFromAppointment dbBooked 1 none none none 20240302).2.2
      ⟨1, 1, 1, 20240301, 900, .scheduled, none, none⟩ rfl (by decide)
  exact ⟨h1, h2.1⟩

theorem appt_provenance {db db2 : DB} {op : Op} (h : applyOp db op = .ok db2) :
    ∀ a2 ∈ db2.appointments,
      (∃ a1 ∈ db.appointments, a1.appointment_id = a2.appointment_id) ∨
        a2.status = Status.scheduled := by
  cases op with
  | registerPatient f =>
    replace h : registerPatient db f = .ok db2 := h
    unfold registerPatient at h
    split at h
    next => simp at h
    next =>
      split at h
      next => simp at h
      next =>
        injection h with h2
        subst h2
        exact fun a2 ha2 => Or.inl ⟨a2, ha2, rfl⟩
  | registerDoctor f =>
    replace h : registerDoctor db f = .ok db2 := h
    unfold registerDoctor at h
    split at h
    next => simp at h
    next =>
      split at h
      next => simp at h
      next =>
        split at h
        next => simp at h
        next =>
          injection h with h2
          subst h2
          exact fun a2 ha2 => Or.inl ⟨a2, ha2, rfl⟩
  | updateDoctor did f =>
    replace h : updateDoctor db did f = .ok db2 := h
    unfold updateDoctor at h
    split at h
    next => simp at h
    next =>
      split at h
      next => simp at h
      next =>
        split at h
        next => simp at h
        next =>
          split at h
          next => simp at h
          next =>
            injection h with h2
            subst h2
            exact fun a2 ha2 => Or.inl ⟨a2, ha2, rfl⟩
  | deletePatient pid =>
    replace h : deletePatient db pid = .ok db2 := h
    unfold deletePatient at h
    split at h
    next => simp at h
    next =>
      injection h with h2
      subst h2
      exact fun a2 ha2 => Or.inl ⟨a2, (List.mem_filter.mp ha2).1, rfl⟩
  | deleteDoctor did =>
    replace h : deleteDoctor db did = .ok db2 := h
    unfold deleteDoctor at h
    split at h
    next => simp at h
    next =>
      injection h with h2
      subst h2
      exact fun a2 ha2 => Or.inl ⟨a2, (List.mem_filter.mp ha2).1, rfl⟩
  | deleteAppointment aid =>
    replace h : deleteAppointment db aid = .ok db2 := h
    unfold deleteAppointment at h
    split at h
    next => simp at h
    next =>
      injection h with h2
      subst h2
      exact fun a2 ha2 => Or.inl ⟨a2, (List.mem_filter.mp ha2).1, rfl⟩
  | book pid did date time r =>
    have hb : book db pid did date time r = .ok db2 := h
    obtain ⟨-, -, -, hdb2⟩ := book_ok hb
    subst hdb2
    intro a2 ha2
    rcases List.mem_cons.mp ha2 with he | hm
    · subst he
      exact Or.inr rfl
    · exact Or.inl ⟨a2, hm, rfl⟩
  | transition aid s =>
    have ht : transition db aid s = .ok db2 := h
    obtain ⟨-, -, -, happ⟩ := transition_ok ht
    intro a2 ha2
    rw [happ, List.mem_map] at ha2
    obtain ⟨b, hb, he⟩ := ha2
    refine Or.inl ⟨b, hb, ?_⟩
    rw [← he, statusMap_appt]
  | cancel aid =>
    have ht : transition db aid .cancelled = .ok db2 := h
    obtain ⟨-, -, -, happ⟩ := transition_ok ht
    intro a2 ha2
    rw [happ, List.mem_map] at ha2
    obtain ⟨b, hb, he⟩ := ha2
    refine Or.inl ⟨b, hb, ?_⟩
    rw [← he, statusMap_appt]
  | createMedicalRecord aid d p n rd =>
    replace h : createMedicalRecord db aid d p n rd = .ok db2 := h
    unfold createMedicalRecord at h
    split at h
    next => simp at h
    next a hf =>
      split at h
      next =>
        injection h with h2
        subst h2
        exact fun a2 ha2 => Or.inl ⟨a2, ha2, rfl⟩
      next => simp at h

/-- Claim C7: a successful `book` creates its appointment in status
Scheduled, and no operation of the interface ever introduces an
appointment row with a fresh id in any other status (existing rows may
change status only through `transition`). -/
theorem c7_initial_status {db : DB} :
    (∀ pid did date time r db2, book db pid did date time r = .ok db2 →
      db2.appointments.any (fun a => a.doctor_id == did
        && a.appointment_date == date && a.appointment_time == time
        && a.status == Status.scheduled) = true) ∧
    (∀ op db2, applyOp db op = .ok db2 → ∀ a2 ∈ db2.appointments,
      (∃ a1 ∈ db.appointments, a1.appointment_id = a2.appointment_id) ∨
        a2.status = Status.scheduled) := by
  constructor
  · intro pid did date time r db2 hb
    obtain ⟨-, -, -, hdb2⟩ := book_ok hb
    subst hdb2
    show List.any (_ :: _) _ = true
    rw [List.any_cons]
    simp
  · exact fun op db2 h => appt_provenance h

/-- Claim C7 witness: the concrete booked state holds its appointment with
status Scheduled on the booked slot. -/
theorem c7_initial_status_witness :
    dbBooked.appointments.any (fun a => a.doctor_id == 1
      && a.appointment_date == 20240301 && a.appointment_time == 900
      && a.status == Status.scheduled) = true :=
  (@c7_initial_status dbBase).1 1 1 20240301 900 none dbBooked rfl

/-- Claim C8: booking is transactional — a failed `book` (NotFound or
SlotTaken) leaves the state exactly as before, with no appointment row
and no ledger reservation visible from it, while a successful `book`
makes the appointment row and its reservation visible together, touching
nothing else. -/
theorem c8_atomic_booking {db : DB} {pid did date time : Nat} {r : Option String} :
    (∀ e, book db pid did date time r = .error e →
      exec db (Op.book pid did date time r) = db) ∧
    (∀ db2, book db pid did date time r = .ok db2 →
      slotReserved db2 did date time = true ∧
        db2.appointments.length = db.appointments.length + 1 ∧
        db2.patients = db.patients ∧ db2.doctors = db.doctors ∧
          db2.medical_records = db.medical_records) := by
  constructor
  · intro e he
    simp [exec, applyOp, he]
  · intro db2 hb
    obtain ⟨-, -, -, hdb2⟩ := book_ok hb
    subst hdb2
    refine ⟨?_, by simp, rfl, rfl, rfl⟩
    show List.any (_ :: _) _ = true
    rw [List.any_cons]
    simp

/-- Claim C8 witness: a booking that fails (no such patient) leaves the
empty database untouched; the successful concrete booking exposes its
reservation. -/
theorem c8_atomic_booking_witness :
    exec initDB (Op.book 1 1 20240301 900 none) = initDB ∧
      slotReserved dbBooked 1 20240301 900 = true := by
  have h1 := @c8_atomic_booking initDB 1 1 20240301 900 none
  have h2 := @c8_atomic_booking dbBase 1 1 20240301 900 none
  exact ⟨h1.1 .NotFound rfl, (h2.2 dbBooked rfl).1⟩

/-- Claim C9: at every reachable state, every medical record references an
existing patient and an existing doctor; in the schema embedding the
`patient_id`, `doctor_id` and `record_date` columns are non-nullable by
construction and only `appointment_id` is optional. -/
theorem c9_record_integrity {db : DB} (h : Reachable db) :
    db.medical_records.all (fun r =>
      hasPatient db r.patient_id && hasDoctor db r.doctor_id) = true := by
  obtain ⟨-, hM, -⟩ := inv_reachable h
  rw [List.all_eq_true]
  intro r hr
  rw [Bool.and_eq_true]
  exact ⟨(hM r hr).1, (hM r hr).2.1⟩

/-- Claim C9 witness: the integrity check evaluated at a concrete reachable
state holding one medical record. -/
theorem c9_record_integrity_witness :
    dbRecorded.medical_records.all (fun r =>
      hasPatient dbRecorded r.patient_id && hasDoctor dbRecorded r.doctor_id)
        = true :=
  c9_record_integrity ⟨opsRecorded, rfl⟩

/-- Claim C10: phone and email are optional and unique only among present
values: registration always succeeds with both absent, so any number of
such patients or doctors coexist; a doctor's license number is
non-nullable in the embedding and must merely be fresh. -/
theorem c10_optional_contacts (db : DB) (fP : PatientFields) (fD : DoctorFields)
    (hp : fP.phone_number = none) (he : fP.email = none)
    (hdp : fD.phone_number = none) (hde : fD.email = none)
    (hl : db.doctors.any (fun d => d.license_number == fD.license_number) = false) :
    registerPatient db fP = .ok { db with patients :=
      ⟨nextId (db.patients.map (fun p => p.patient_id)), fP.first_name,
        fP.last_name, fP.date_of_birth, fP.gender, fP.phone_number, fP.email,
        fP.address⟩ :: db.patients } ∧
    registerDoctor db fD = .ok { db with doctors :=
      ⟨nextId (db.doctors.map (fun d => d.doctor_id)), fD.first_name, fD.last_name,
        fD.specialization, fD.phone_number, fD.email, fD.license_number,
        fD.available⟩ :: db.doctors } := by
  constructor
  · unfold registerPatient
    simp [optTaken, hp, he]
  · unfold registerDoctor
    simp [optTaken, hdp, hde, hl]

def dbOneP : DB := exec initDB (Op.registerPatient pf1)

/-- Claim C10 witness: two patients with absent phone/email register in
sequence, and a doctor with absent phone/email registers, all
successfully. -/
theorem c10_optional_contacts_witness :
    registerPatient initDB pf1 = .ok dbOneP ∧
      registerPatient dbOneP pf2 = .ok (exec dbOneP (Op.registerPatient pf2)) ∧
      registerDoctor initDB df1 = .ok (exec initDB (Op.registerDoctor df1)) := by
  have h1 := c10_optional_contacts initDB pf1 df1 rfl rfl rfl rfl rfl
  have h2 := c10_optional_contacts dbOneP pf2 df1 rfl rfl rfl rfl rfl
  exact ⟨h1.1, h2.1, h1.2⟩

end Clinic
